import Mathlib

/-!
Verification of the gemini-image-retouch repository.

The repository has three Python entry points (`main.py`, `src/single_retouch.py`,
`src/batch_retouch.py`) and a result fetcher (`src/check_batch.py`).  This file
gives a shallow embedding of the pure core of those scripts — the request-manifest
builder, the result-manifest parser, the file-selection predicates and the
output-path computation — and proves the spec's claims about them.

Strings are modelled as `List Char` (written `Str`); Python string primitives
(`str.replace`, `os.path.splitext`, `pathlib.PurePath.stem`, `str.endswith`,
`str.lower`, `os.path.join`) are translated from their CPython semantics.
JSON values (the output of `json.loads`, the input of `json.dumps`) are modelled
by the inductive type `J`.  External I/O (GCS upload, HTTP, `open`/`write`,
`base64.b64decode`) is modelled at the boundary: the parser records, in order,
every file write it would perform, keeping the base64 payload undecoded (base64
decoding is an external library call; no claim exercises an invalid payload).
-/

namespace GeminiRetouch

/-- Strings of the modelled program, as plain character lists. -/
abbrev Str := List Char

/-! ### Python string primitives -/

/-- Python `pat in s` for strings: `pat` occurs as a contiguous substring of `s`.
(Python: `"" in s` is `True`.) -/
def containsSub (pat : Str) : Str → Bool
  | [] => pat.isEmpty
  | c :: rest => pat.isPrefixOf (c :: rest) || containsSub pat rest

/-- Worker for `pyReplaceDel`: with `skip = 0`, scan for the pattern; on a
match, drop the matched head character and enter skip mode for the remaining
`pat.length - 1` matched characters, resuming the scan right after the
occurrence (Python's non-overlapping left-to-right replacement). -/
def pyReplaceDelAux (pat : Str) : Nat → Str → Str
  | _, [] => []
  | k + 1, _ :: rest => pyReplaceDelAux pat k rest
  | 0, c :: rest =>
    if pat.isPrefixOf (c :: rest) && !pat.isEmpty then
      pyReplaceDelAux pat (pat.length - 1) rest
    else
      c :: pyReplaceDelAux pat 0 rest

/-- Python `s.replace(pat, "")` for a pattern `pat`: delete every occurrence of
`pat`, scanning left to right, non-overlapping.  (Used by `check_batch.py`
line 106: `custom_id.replace("retouch_", "")`.)  Python's behaviour for the
empty pattern (insert nothing, keep `s`) is also matched, via the
`!pat.isEmpty` guard. -/
def pyReplaceDel (pat s : Str) : Str :=
  pyReplaceDelAux pat 0 s

/-- Split a string at its last `'.'`: returns `some (a, b)` with
`s = a ++ '.' :: b` and no `'.'` in `b`, or `none` when `s` has no dot. -/
def splitLastDot : Str → Option (Str × Str)
  | [] => none
  | c :: rest =>
    match splitLastDot rest with
    | some (a, b) => some (c :: a, b)
    | none => if c = '.' then some ([], rest) else none

/-- First component of CPython's `os.path.splitext` for a bare filename
(no path separator): split at the last dot, unless every character before
that dot is itself a dot (leading-dot files keep their name whole). -/
def pySplitextFst (s : Str) : Str :=
  match splitLastDot s with
  | none => s
  | some (a, _) => if a.any (fun c => c != '.') then a else s

/-- CPython `pathlib.PurePath.stem` for a bare filename: drop the last suffix,
where the last dot counts as a suffix separator only when it is neither the
first nor the last character of the name. -/
def pyStem (s : Str) : Str :=
  match splitLastDot s with
  | none => s
  | some (a, b) => if !a.isEmpty && !b.isEmpty then a else s

/-- Python `s.endswith(suf)`. -/
def pyEndsWith (suf s : Str) : Bool :=
  suf.isSuffixOf s

/-- Python `s.lower()` (the inputs of interest are ASCII filenames). -/
def pyLower (s : Str) : Str :=
  s.map Char.toLower

/-- Python `os.path.join(a, b)` on POSIX for a single right operand:
an absolute `b` discards `a`; otherwise insert a separator unless `a`
is empty or already ends in one. -/
def pyJoin (a b : Str) : Str :=
  if b.head? = some '/' then b
  else if a.isEmpty then b
  else if a.getLast? = some '/' then a ++ b
  else a ++ '/' :: b

/-- Python `str(i)` / f-string interpolation of a natural number. -/
def natStr (n : Nat) : Str :=
  (Nat.repr n).data

/-- Split on a separator character (every separator produces a boundary;
adjacent separators produce empty components). -/
def splitOnChar (sep : Char) : Str → List Str
  | [] => [[]]
  | c :: rest =>
    if c = sep then [] :: splitOnChar sep rest
    else
      match splitOnChar sep rest with
      | s :: ss => (c :: s) :: ss
      | [] => [[c]]

/-- CPython `pathlib.PurePosixPath(p).parts`: split on `/`, drop empty
components and `"."` components, and keep a leading root component `"/"`
for absolute paths.  (The POSIX double-slash special case for paths starting
with exactly `//` is not modelled; no claim uses such a path.) -/
def pathParts (p : Str) : List Str :=
  let comps := (splitOnChar '/' p).filter (fun c => !c.isEmpty && c != ['.'])
  if p.head? = some '/' then ['/'] :: comps else comps

/-- Python `list.index(x)` as an option (`some i` for the first occurrence). -/
def firstIdx (x : Str) : List Str → Option Nat
  | [] => none
  | y :: ys => if y = x then some 0 else (firstIdx x ys).map (· + 1)

/-! ### JSON values

The value space of `json.loads` / the argument space of `json.dumps`.
Objects are ordered field lists, matching CPython's insertion-ordered dicts
(for values produced by `json.loads`, keys are already deduplicated). -/

inductive J where
  | null : J
  | bool : Bool → J
  | num : Int → J
  | str : Str → J
  | arr : List J → J
  | obj : List (Str × J) → J

/-- Python `d[k]` / `d.get(k)` on a parsed-JSON dict's field list:
the first binding of the key. -/
def jLookup (k : Str) : List (Str × J) → Option J
  | [] => none
  | kv :: rest => if kv.1 = k then some kv.2 else jLookup k rest

/-- Python `k in d` for a dict given by its field list. -/
def containsKey (k : Str) (fs : List (Str × J)) : Bool :=
  fs.any (fun kv => kv.1 == k)

/-- Python truthiness of a JSON value (`if not x: ...`). -/
def jFalsy : J → Bool
  | J.null => true
  | J.bool b => !b
  | J.num n => n == 0
  | J.str s => s.isEmpty
  | J.arr xs => xs.isEmpty
  | J.obj fs => fs.isEmpty

/-! ### Request-manifest builder (`src/batch_retouch.py`) -/

/-- `src/batch_retouch.py` line 25. -/
def MODEL_ID : Str := "models/gemini-2.5-flash".data

/-- `src/batch_retouch.py` line 23. -/
def GCS_INPUT_PATH : Str := "gs://gemini-image-retouch/raw/".data

/-- The dict built for one image by `create_batch_file`
(`src/batch_retouch.py` lines 84–104). -/
def requestLine (prompt img_name : Str) : J :=
  J.obj [
    ("custom_id".data, J.str ("retouch_".data ++ img_name)),
    ("method".data, J.str "POST".data),
    ("request".data, J.obj [
      ("model".data, J.str MODEL_ID),
      ("contents".data, J.arr [
        J.obj [("parts".data, J.arr [J.obj [("text".data, J.str prompt)]])],
        J.obj [("parts".data, J.arr [
          J.obj [("file_data".data, J.obj [
            ("mime_type".data, J.str "image/jpeg".data),
            ("file_uri".data, J.str (GCS_INPUT_PATH ++ img_name))])]])]
      ]),
      ("generation_config".data, J.obj [
        ("response_modalities".data, J.arr [J.str "IMAGE".data])])
    ])
  ]

/-- The sequence of dicts emitted by `create_batch_file` over its input list
(`src/batch_retouch.py` lines 82–105), one per image name, in order. -/
def createBatchLines (image_names : List Str) (prompt : Str) : List J :=
  image_names.map (requestLine prompt)

/-- JSON string-character escaping as performed by `json.dumps`: the
two-character escapes for quote, backslash and the common control characters.
(`json.dumps`'s `\uXXXX` escaping of other control characters and — under
`ensure_ascii` — of non-ASCII characters is not modelled; it affects neither
the line structure nor any claim, as it also never emits a raw newline.) -/
def escChar (c : Char) : Str :=
  if c = '"' then ['\\', '"']
  else if c = '\\' then ['\\', '\\']
  else if c = '\n' then ['\\', 'n']
  else if c = '\r' then ['\\', 'r']
  else if c = '\t' then ['\\', 't']
  else if c = '\x08' then ['\\', 'b']
  else if c = '\x0c' then ['\\', 'f']
  else [c]

/-- Body of a serialized JSON string. -/
def escStr (s : Str) : Str :=
  s.flatMap escChar

/-- A serialized JSON string, quotes included. -/
def dumpStr (s : Str) : Str :=
  '"' :: escStr s ++ ['"']

/-- Join serialized items with `json.dumps`'s default item separator `", "`. -/
def sepJoin : List Str → Str
  | [] => []
  | [s] => s
  | s :: r :: rest => s ++ ',' :: ' ' :: sepJoin (r :: rest)

/-- `json.dumps` with default settings (separators `", "` and `": "`),
restricted as in `escChar`'s note. -/
def dumpJ : J → Str
  | J.null => "null".data
  | J.bool true => "true".data
  | J.bool false => "false".data
  | J.num n => (toString n).data
  | J.str s => dumpStr s
  | J.arr xs => '[' :: sepJoin (xs.attach.map (fun x => dumpJ x.1)) ++ [']']
  | J.obj fs =>
      '\x7b' :: sepJoin (fs.attach.map
        (fun kv => dumpStr kv.1.1 ++ ':' :: ' ' :: dumpJ kv.1.2)) ++ ['\x7d']
decreasing_by
  · have h := List.sizeOf_lt_of_mem x.2
    simp only [J.arr.sizeOf_spec]
    omega
  · have h := List.sizeOf_lt_of_mem kv.2
    have h2 : sizeOf kv.1.2 < sizeOf kv.1 := by
      obtain ⟨a, b⟩ := kv.1
      simp only [Prod.mk.sizeOf_spec]
      omega
    simp only [J.obj.sizeOf_spec]
    omega

/-- The full text written to `batch_requests.jsonl` by `create_batch_file`
(`src/batch_retouch.py` lines 81–105): the file is opened in mode `"w"`
(overwriting), and each dict is written as `json.dumps(line) + "\n"`. -/
def batchFileText (image_names : List Str) (prompt : Str) : Str :=
  (image_names.map (fun n => dumpJ (requestLine prompt n) ++ ['\n'])).flatten

/-- Outcome of the `__main__` block of `src/batch_retouch.py` after the upload
step returned the file list (lines 121–128): an empty list exits normally
before any manifest is built; otherwise the manifest lines are created and the
flow proceeds to the (external) upload/submit calls. -/
inductive MainStep where
  | exitNoOp : MainStep
  | proceed : List J → MainStep

/-- `src/batch_retouch.py` lines 123–128. -/
def batchMain (files : List Str) (prompt : Str) : MainStep :=
  if files.isEmpty then MainStep.exitNoOp
  else MainStep.proceed (createBatchLines files prompt)

/-- File-selection predicate of the upload path
(`src/batch_retouch.py` lines 58–62): lowercase the name, then test the
suffix tuple. -/
def uploadAccepts (f : Str) : Bool :=
  pyEndsWith ".jpg".data (pyLower f) || pyEndsWith ".jpeg".data (pyLower f) ||
    pyEndsWith ".png".data (pyLower f) || pyEndsWith ".webp".data (pyLower f)

/-! ### Result-manifest parser (`src/check_batch.py`)

The manifest is modelled after the external `json.loads` step: each physical
line of `content.strip().split(b"\n")` is either `some j` (it parsed to the
JSON value `j`) or `none` (`json.loads` raised, which the per-line
`try/except` catches).  Each dynamic operation of the loop body is translated
below; where a value's runtime type makes a Python operation raise
(`AttributeError`/`TypeError`/`KeyError`), the model returns the failure
outcome, since the surrounding `try/except` turns every such exception into a
recorded per-line failure.  Disk writes are recorded as `Write` values; the
base64 payload is kept undecoded (`base64.b64decode` and `open`/`write` are
external; no claim involves a payload the library rejects). -/

/-- `src/check_batch.py` line 17. -/
def OUTPUT_DIR : Str := "./data/processed".data

/-- One performed file write: the output filename, the joined output path,
and the (still base64-encoded) payload. -/
structure Write where
  name : Str
  path : Str
  dataB64 : Str
deriving DecidableEq

/-- Extension choice of `src/check_batch.py` lines 99–101:
`ext = ".png"`, then `".jpg"` when `"jpeg" in mime_type`. -/
def extFor (mime : Str) : Str :=
  if containsSub "jpeg".data mime then ".jpg".data else ".png".data

/-- Output-filename derivation of `src/check_batch.py` lines 106–109:
strip `"retouch_"` (Python `str.replace`, hence every occurrence), drop the
extension with `os.path.splitext`, append `"_retouched"` and the
MIME-derived extension. -/
def outNameFor (custom_id ext : Str) : Str :=
  let base_name := pyReplaceDel "retouch_".data custom_id
  let name_part := pySplitextFst base_name
  name_part ++ "_retouched".data ++ ext

/-- The write performed at `src/check_batch.py` lines 110–113 for one
inline-data part. -/
def mkWrite (custom_id ext dataB64 : Str) : Write :=
  let out_name := outNameFor custom_id ext
  ⟨out_name, pyJoin OUTPUT_DIR out_name, dataB64⟩

/-- The declared MIME type of an inline-data dict as the string it is used as:
`part["inline_data"].get("mime_type", "image/png")` (line 95), `none` when the
stored value is not a string usable by the later `"jpeg" in mime_type` test. -/
def partMimeStr (ds : List (Str × J)) : Option Str :=
  match jLookup "mime_type".data ds with
  | none => some "image/png".data
  | some (J.str m) => some m
  | some _ => none

/-- The tail of the part loop body once the extension and payload are known
(`src/check_batch.py` lines 104–113): `custom_id.replace(...)` raises when the
line's `custom_id` value is not a string; otherwise the file write happens. -/
def finishPart (custom_id : J) (ext dataB64 : Str) : Except Unit (Option Write) :=
  match custom_id with
  | J.str cid => .ok (some (mkWrite cid ext dataB64))
  | _ => .error ()

/-- Body of the `for part in parts` loop, `src/check_batch.py` lines 92–116:
`.ok none` — no `inline_data`, part skipped; `.ok (some w)` — a file write;
`.error ()` — a Python exception (caught by the per-line handler).
Dynamic-typing cases: a string part is tested by substring (`"inline_data" in
part`) and, on a hit, raises at `part["inline_data"]` (string subscripted by
a string); a list part is tested by membership and likewise raises on a hit;
a dict part raises at the subscript when `inline_data` is not a dict, at
`part["inline_data"]["data"]` when the key `data` is missing, at
`"jpeg" in mime_type` when the MIME value is a number/bool/null, and at
`b64decode` when the payload is not a string.  A list or dict MIME value does
not raise: Python `in` is then membership, matched here. -/
def processPart (custom_id : J) (part : J) : Except Unit (Option Write) :=
  match part with
  | J.obj pfs =>
    match jLookup "inline_data".data pfs with
    | none => .ok none
    | some (J.obj ds) =>
      match jLookup "data".data ds with
      | some (J.str data_b64) =>
        match jLookup "mime_type".data ds with
        | none =>
          -- missing MIME type: the default "image/png" is used
          finishPart custom_id (extFor "image/png".data) data_b64
        | some (J.str m) =>
          finishPart custom_id (extFor m) data_b64
        | some (J.arr xs) =>
          -- "jpeg" in list: membership against the string "jpeg"
          finishPart custom_id
            (if xs.any (fun x => match x with
                | J.str s => s == "jpeg".data
                | _ => false)
             then ".jpg".data else ".png".data) data_b64
        | some (J.obj ms) =>
          -- "jpeg" in dict: key membership
          finishPart custom_id
            (if containsKey "jpeg".data ms then ".jpg".data else ".png".data) data_b64
        | some _ => .error ()   -- "jpeg" in number/bool/null raises TypeError
      | some _ => .error ()     -- b64decode of a non-string raises
      | none => .error ()       -- KeyError at part["inline_data"]["data"]
    | some _ => .error ()       -- .get on a non-dict inline_data raises
  | J.str s =>
    if containsSub "inline_data".data s then .error () else .ok none
  | J.arr xs =>
    if xs.any (fun x => match x with
        | J.str s => s == "inline_data".data
        | _ => false)
    then .error () else .ok none
  | _ => .error ()              -- "inline_data" in number/bool/null raises

/-- The `for part in parts` loop over a parts list (`src/check_batch.py`
lines 92–116).  Returns the writes performed, in order, and whether the loop
ran to completion (`false`: an exception escaped to the per-line handler;
writes made before the exception stand). -/
def processParts (custom_id : J) : List J → List Write × Bool
  | [] => ([], true)
  | p :: rest =>
    match processPart custom_id p with
    | .error _ => ([], false)
    | .ok none => processParts custom_id rest
    | .ok (some w) =>
      let (ws, ok) := processParts custom_id rest
      (w :: ws, ok)

/-- `parts = candidates[0].get("content", {}).get("parts", [])` followed by the
parts loop (`src/check_batch.py` lines 91–116), for the first candidate `c0`.
A non-dict candidate or `content` raises at `.get`.  A non-list `parts` value:
iterating a string yields 1-character strings, for which the 11-character
substring test `"inline_data" in part` is always false (loop completes with no
writes); iterating a dict yields its keys, raising only when some key contains
`"inline_data"` as a substring; numbers/bools/null are not iterable. -/
def processFirstCandidate (custom_id : J) (c0 : J) : List Write × Bool :=
  match c0 with
  | J.obj c0fs =>
    match (jLookup "content".data c0fs).getD (J.obj []) with
    | J.obj cfs =>
      match (jLookup "parts".data cfs).getD (J.arr []) with
      | J.arr ps => processParts custom_id ps
      | J.str _ => ([], true)
      | J.obj pfs =>
          if pfs.any (fun kv => containsSub "inline_data".data kv.1)
          then ([], false) else ([], true)
      | _ => ([], false)
    | _ => ([], false)          -- content.get on a non-dict raises
  | _ => ([], false)            -- candidates[0].get on a non-dict raises

/-- `candidates` handling, `src/check_batch.py` lines 86–91: a falsy value
(`if not candidates`) is the "No candidates" continue; a truthy non-list
raises at `candidates[0]` or at the following `.get`; a non-empty list hands
its head to `processFirstCandidate` — the remaining candidates are never
inspected. -/
def processCandidates (custom_id : J) (candidates : J) : List Write × Bool :=
  if jFalsy candidates then ([], true)
  else
    match candidates with
    | J.arr (c0 :: _) => processFirstCandidate custom_id c0
    | _ => ([], false)

/-- `custom_id = result.get("custom_id", f"image_{i}")`
(`src/check_batch.py` line 65). -/
def lineCustomId (i : Nat) (fs : List (Str × J)) : J :=
  (jLookup "custom_id".data fs).getD (J.str ("image_".data ++ natStr i))

/-- One parsed result line, `src/check_batch.py` lines 64–116.  A non-dict
`result` raises at `result.get`.  `response` defaults to the empty dict; a
non-dict `response` always ends in an exception: number/bool/null/list raise
at `"error" in response` or at the subsequent `response.get`, and a string
raises either at `response["error"]` (when it contains `"error"`) or at
`response.get` (strings have no `.get`). -/
def processResult (i : Nat) (result : J) : List Write × Bool :=
  match result with
  | J.obj fs =>
    let custom_id := lineCustomId i fs
    match (jLookup "response".data fs).getD (J.obj []) with
    | J.obj rs =>
      if containsKey "error".data rs then ([], true)   -- per-item error: skip
      else processCandidates custom_id ((jLookup "candidates".data rs).getD (J.arr []))
    | _ => ([], false)
  | _ => ([], false)

/-- The whole result loop `for i, line in enumerate(lines)`
(`src/check_batch.py` lines 61–119) starting at index `i`: accumulates every
write and the indices of lines whose processing raised (each caught and
logged as `Failed to process line i`). -/
def processLinesFrom (i : Nat) : List (Option J) → List Write × List Nat
  | [] => ([], [])
  | line :: rest =>
    let step :=
      match line with
      | none => ([], false)     -- json.loads raised on this line
      | some result => processResult i result
    let acc := processLinesFrom (i + 1) rest
    (step.1 ++ acc.1, if step.2 then acc.2 else i :: acc.2)

/-- The result loop over the full manifest (indices from 0). -/
def processLines (lines : List (Option J)) : List Write × List Nat :=
  processLinesFrom 0 lines

/-! ### Synchronous entry points (`main.py`, `src/single_retouch.py`) -/

/-- File-selection predicate of `main.py` line 77:
`filename.endswith((".jpg", ".png", ".jpeg", ".JPG", ".PNG", ".JPEG"))`. -/
def mainAccepts (f : Str) : Bool :=
  pyEndsWith ".jpg".data f || pyEndsWith ".png".data f || pyEndsWith ".jpeg".data f ||
    pyEndsWith ".JPG".data f || pyEndsWith ".PNG".data f || pyEndsWith ".JPEG".data f

/-- File-selection predicate of `src/single_retouch.py` lines 101–102
(the same suffix tuple as `main.py`). -/
def singleAccepts (f : Str) : Bool :=
  pyEndsWith ".jpg".data f || pyEndsWith ".png".data f || pyEndsWith ".jpeg".data f ||
    pyEndsWith ".JPG".data f || pyEndsWith ".PNG".data f || pyEndsWith ".JPEG".data f

/-- Output-directory computation of `src/single_retouch.py` lines 76–86, as a
parts list: if some component of `Path(raw_dir)` equals `"raw"`, the result is
`Path(processed_dir).joinpath(*parts-after-the-first-"raw")`; otherwise it is
`Path(processed_dir)` itself.  (`joinpath` over the plain-name components
produced by `pathParts` appends them to the base's components.) -/
def outputDirParts (raw_dir processed_dir : Str) : List Str :=
  let raw_parts := pathParts raw_dir
  match firstIdx "raw".data raw_parts with
  | some i => pathParts processed_dir ++ raw_parts.drop (i + 1)
  | none => pathParts processed_dir

/-- Output-filename derivation of `src/single_retouch.py` line 128:
`f"retouched_{Path(filename).stem}.png"`. -/
def singleOutName (filename : Str) : Str :=
  "retouched_".data ++ pyStem filename ++ ".png".data

/-! ### Spec-side formalizations

These definitions follow the spec's words (not the code); the claims compare
the code-derived definitions above against them. -/

/-- The request-line schema as written in the spec (§6): an object with fields
`custom_id` (string), `method` = `"POST"`, and `request` holding the model
string, the two-element contents list — a text part with the prompt, then a
file-data part with MIME type and file URI strings — and the generation
config requesting image output. -/
def specRequestLineSchema (prompt : Str) (j : J) : Prop :=
  ∃ cid model mime uri : Str,
    j = J.obj [
      ("custom_id".data, J.str cid),
      ("method".data, J.str "POST".data),
      ("request".data, J.obj [
        ("model".data, J.str model),
        ("contents".data, J.arr [
          J.obj [("parts".data, J.arr [J.obj [("text".data, J.str prompt)]])],
          J.obj [("parts".data, J.arr [
            J.obj [("file_data".data, J.obj [
              ("mime_type".data, J.str mime),
              ("file_uri".data, J.str uri)])]])]
        ]),
        ("generation_config".data, J.obj [
          ("response_modalities".data, J.arr [J.str "IMAGE".data])])
      ])
    ]

/-- The `custom_id` field of a request line. -/
def customIdOf (j : J) : Option J :=
  match j with
  | J.obj fs => jLookup "custom_id".data fs
  | _ => none

/-- The spec's acceptance predicate (§6): the filename ends with one of the
given (lowercase) extensions in any letter case. -/
def specAcceptsCI (exts : List Str) (f : Str) : Bool :=
  exts.any (fun e => pyEndsWith e (pyLower f))

/-- Whether a part carries inline image bytes (an `inline_data` field). -/
def hasInlineKey (p : J) : Bool :=
  match p with
  | J.obj pfs => containsKey "inline_data".data pfs
  | _ => false

/-- The parts list of one candidate (empty for shapes without one). -/
def candidateParts (c : J) : List J :=
  match c with
  | J.obj cfs =>
    match jLookup "content".data cfs with
    | some (J.obj ccfs) =>
      match jLookup "parts".data ccfs with
      | some (J.arr ps) => ps
      | _ => []
    | _ => []
  | _ => []

/-- The claim's count for one result line: the number of inline-data parts
among **all** the line's candidates (spec §4.2: "walk candidate → content →
parts to find every part carrying inline image bytes"). -/
def specLineInlineParts (j : J) : Nat :=
  match j with
  | J.obj fs =>
    match jLookup "response".data fs with
    | some (J.obj rs) =>
      match jLookup "candidates".data rs with
      | some (J.arr cs) =>
        (cs.map (fun c => (candidateParts c).countP (fun p => hasInlineKey p))).sum
      | _ => 0
    | _ => 0
  | _ => 0

/-! ### Concrete result-line values

Fixture values (in the shape the vendor's result manifest uses) on which the
claims are instantiated. -/

/-- A content part carrying inline image bytes, with an optional declared
MIME type. -/
def inlinePart (mime : Option Str) (b64 : Str) : J :=
  J.obj [("inline_data".data, J.obj
    ((match mime with
      | some m => [("mime_type".data, J.str m)]
      | none => []) ++ [("data".data, J.str b64)]))]

/-- A candidate holding the given content parts. -/
def candidateOf (parts : List J) : J :=
  J.obj [("content".data, J.obj [("parts".data, J.arr parts)])]

/-- A result line with a `custom_id` and the given candidates. -/
def successLine (cid : Str) (cands : List J) : J :=
  J.obj [("custom_id".data, J.str cid),
    ("response".data, J.obj [("candidates".data, J.arr cands)])]

/-- A result line whose response carries an `error` object. -/
def errorLine (cid : Str) : J :=
  J.obj [("custom_id".data, J.str cid),
    ("response".data, J.obj [("error".data,
      J.obj [("message".data, J.str "quota".data)])])]

/-! ### Lemmas about the string primitives -/

theorem isPrefixOf_self_append (l t : Str) : l.isPrefixOf (l ++ t) = true := by
  induction l with
  | nil => simp [List.isPrefixOf]
  | cons c cs ih => simp [List.isPrefixOf, ih]

theorem isPrefixOf_cons_iff (p : Char) (ps : Str) (c : Char) (rest : Str) :
    (p :: ps).isPrefixOf (c :: rest) = (p == c && ps.isPrefixOf rest) :=
  rfl

/-- Skip mode consumes exactly the given number of characters. -/
theorem pyReplaceDelAux_skip (pat d s : Str) :
    pyReplaceDelAux pat d.length (d ++ s) = pyReplaceDelAux pat 0 s := by
  induction d with
  | nil => rfl
  | cons c rest ih =>
    rw [List.cons_append, List.length_cons, pyReplaceDelAux]
    exact ih

/-- Deleting the pattern from a string that starts with it consumes exactly
that occurrence first. -/
theorem pyReplaceDel_append_self (p : Char) (ps s : Str) :
    pyReplaceDel (p :: ps) ((p :: ps) ++ s) = pyReplaceDel (p :: ps) s := by
  unfold pyReplaceDel
  rw [List.cons_append, pyReplaceDelAux]
  have h1 : (p :: ps).isPrefixOf (p :: (ps ++ s)) = true := by
    have h := isPrefixOf_self_append (p :: ps) s
    rwa [List.cons_append] at h
  simp only [h1, List.isEmpty_cons, Bool.not_false, Bool.and_true, if_true,
    List.length_cons, Nat.add_sub_cancel]
  exact pyReplaceDelAux_skip (p :: ps) ps s

/-- A string with no occurrence of the pattern is unchanged by the deletion. -/
theorem pyReplaceDel_of_not_containsSub (pat s : Str)
    (h : containsSub pat s = false) : pyReplaceDel pat s = s := by
  unfold pyReplaceDel
  induction s with
  | nil => rfl
  | cons c rest ih =>
    rw [containsSub, Bool.or_eq_false_iff] at h
    rw [pyReplaceDelAux, h.1]
    simp [ih h.2]

/-- An occurrence of a non-empty pattern puts the pattern's head character
in the string. -/
theorem head_mem_of_containsSub (p : Char) (ps s : Str)
    (h : containsSub (p :: ps) s = true) : p ∈ s := by
  induction s with
  | nil => simp [containsSub, List.isEmpty] at h
  | cons c rest ih =>
    rw [containsSub, Bool.or_eq_true] at h
    rcases h with h | h
    · rw [isPrefixOf_cons_iff, Bool.and_eq_true] at h
      exact (eq_of_beq h.1) ▸ List.mem_cons_self c rest
    · exact List.mem_cons_of_mem c (ih h)

theorem containsSub_eq_false_of_head_not_mem (p : Char) (ps s : Str)
    (h : p ∉ s) : containsSub (p :: ps) s = false := by
  cases hc : containsSub (p :: ps) s with
  | false => rfl
  | true => exact absurd (head_mem_of_containsSub p ps s hc) h

/-- A string without dots has no last dot. -/
theorem splitLastDot_eq_none (s : Str) (h : '.' ∉ s) : splitLastDot s = none := by
  induction s with
  | nil => rfl
  | cons c rest ih =>
    rw [splitLastDot, ih (fun hm => h (List.mem_cons_of_mem c hm))]
    have hc : c ≠ '.' := fun hc => h (hc ▸ List.mem_cons_self c rest)
    simp [hc]

/-- `os.path.splitext` leaves a dot-free name untouched. -/
theorem pySplitextFst_of_no_dot (s : Str) (h : '.' ∉ s) : pySplitextFst s = s := by
  rw [pySplitextFst, splitLastDot_eq_none s h]

/-- Every character of `str(n)` for a natural `n` is an output of
`Nat.digitChar`. -/
theorem natStr_mem_digitChar (n : Nat) (c : Char) (h : c ∈ natStr n) :
    ∃ m, c = Nat.digitChar m := by
  have key : ∀ (fuel k : Nat) (ds : List Char) (c : Char),
      c ∈ Nat.toDigitsCore 10 fuel k ds → c ∈ ds ∨ ∃ m, c = Nat.digitChar m := by
    intro fuel
    induction fuel with
    | zero => intro k ds c h; exact Or.inl h
    | succ f ih =>
      intro k ds c h
      rw [Nat.toDigitsCore] at h
      split at h
      · rcases List.mem_cons.mp h with h | h
        · exact Or.inr ⟨k % 10, h⟩
        · exact Or.inl h
      · rcases ih _ _ _ h with h | h
        · rcases List.mem_cons.mp h with h | h
          · exact Or.inr ⟨k % 10, h⟩
          · exact Or.inl h
        · exact Or.inr h
  have hrepr : natStr n = Nat.toDigits 10 n := rfl
  rw [hrepr, Nat.toDigits] at h
  rcases key _ _ _ _ h with h | h
  · exact absurd h (List.not_mem_nil c)
  · exact h

theorem digitChar_mem_alphabet (m : Nat) :
    Nat.digitChar m ∈ "0123456789abcdef*".data := by
  rcases Nat.lt_or_ge m 16 with h | h
  · interval_cases m <;> decide
  · have he : Nat.digitChar m = '*' := by
      unfold Nat.digitChar
      rw [if_neg (show ¬m = 0 by omega), if_neg (show ¬m = 1 by omega),
        if_neg (show ¬m = 2 by omega), if_neg (show ¬m = 3 by omega),
        if_neg (show ¬m = 4 by omega), if_neg (show ¬m = 5 by omega),
        if_neg (show ¬m = 6 by omega), if_neg (show ¬m = 7 by omega),
        if_neg (show ¬m = 8 by omega), if_neg (show ¬m = 9 by omega),
        if_neg (show ¬m = 10 by omega), if_neg (show ¬m = 11 by omega),
        if_neg (show ¬m = 12 by omega), if_neg (show ¬m = 13 by omega),
        if_neg (show ¬m = 14 by omega), if_neg (show ¬m = 15 by omega)]
    rw [he]; decide

theorem digitChar_ne_dot (m : Nat) : Nat.digitChar m ≠ '.' := by
  intro he
  have hm := digitChar_mem_alphabet m
  rw [he] at hm
  exact absurd hm (by decide)

theorem digitChar_ne_r (m : Nat) : Nat.digitChar m ≠ 'r' := by
  intro he
  have hm := digitChar_mem_alphabet m
  rw [he] at hm
  exact absurd hm (by decide)

theorem digitChar_ne_nl (m : Nat) : Nat.digitChar m ≠ '\n' := by
  intro he
  have hm := digitChar_mem_alphabet m
  rw [he] at hm
  exact absurd hm (by decide)

/-- The fallback identifier `image_<i>` contains no dot. -/
theorem fallback_id_no_dot (i : Nat) : '.' ∉ "image_".data ++ natStr i := by
  intro h
  rcases List.mem_append.mp h with h | h
  · exact absurd h (by decide)
  · rcases natStr_mem_digitChar i '.' h with ⟨m, hm⟩
    exact digitChar_ne_dot m hm.symm

/-- The fallback identifier `image_<i>` contains no occurrence of
`"retouch_"`. -/
theorem fallback_id_no_retouch (i : Nat) :
    containsSub "retouch_".data ("image_".data ++ natStr i) = false := by
  apply containsSub_eq_false_of_head_not_mem
  intro h
  rcases List.mem_append.mp h with h | h
  · exact absurd h (by decide)
  · rcases natStr_mem_digitChar i 'r' h with ⟨m, hm⟩
    exact digitChar_ne_r m hm.symm

/-! ### Lemmas about the serializer -/

theorem noNL_escChar (c : Char) : '\n' ∉ escChar c := by
  intro hm
  unfold escChar at hm
  split_ifs at hm with h1 h2 h3 h4 h5 h6 h7 <;>
    first
      | exact absurd hm (by decide)
      | exact h3 (List.mem_singleton.mp hm).symm

theorem noNL_escStr (s : Str) : '\n' ∉ escStr s := by
  intro h
  rw [escStr, List.mem_flatMap] at h
  rcases h with ⟨c, _, hc⟩
  exact noNL_escChar c hc

theorem noNL_dumpStr (s : Str) : '\n' ∉ dumpStr s := by
  intro h
  rw [dumpStr] at h
  rcases List.mem_cons.mp h with h | h
  · exact absurd h (by decide)
  · rcases List.mem_append.mp h with h | h
    · exact noNL_escStr s h
    · exact absurd h (by decide)

theorem dumpJ_arr_eq (xs : List J) :
    dumpJ (J.arr xs) = '[' :: sepJoin (xs.map dumpJ) ++ [']'] := by
  rw [dumpJ, List.attach_map_val]

theorem dumpJ_obj_eq (fs : List (Str × J)) :
    dumpJ (J.obj fs) =
      '\x7b' :: sepJoin (fs.map (fun kv => dumpStr kv.1 ++ ':' :: ' ' :: dumpJ kv.2))
        ++ ['\x7d'] := by
  rw [dumpJ, List.attach_map_val fs (fun kv => dumpStr kv.1 ++ ':' :: ' ' :: dumpJ kv.2)]

theorem noNL_sepJoin (ls : List Str) (h : ∀ s ∈ ls, '\n' ∉ s) :
    '\n' ∉ sepJoin ls := by
  induction ls with
  | nil => simp [sepJoin]
  | cons s rest ih =>
    cases rest with
    | nil => exact fun hm => h s (List.mem_singleton.mpr rfl) hm
    | cons r rest2 =>
      intro hm
      rw [sepJoin] at hm
      rcases List.mem_append.mp hm with hm | hm
      · exact h s (List.mem_cons_self s _) hm
      · rcases List.mem_cons.mp hm with hm | hm
        · exact absurd hm (by decide)
        · rcases List.mem_cons.mp hm with hm | hm
          · exact absurd hm (by decide)
          · exact ih (fun t ht => h t (List.mem_cons_of_mem s ht)) hm

/-- No serialized JSON value contains a raw newline: `json.dumps` escapes
every newline occurring in a string. -/
theorem noNL_dumpJ (j : J) : '\n' ∉ dumpJ j := by
  induction j using dumpJ.induct with
  | case1 => rw [dumpJ]; decide
  | case2 => rw [dumpJ]; decide
  | case3 => rw [dumpJ]; decide
  | case4 n =>
    rw [dumpJ]
    intro h
    rcases n with m | m
    · have he : (toString (Int.ofNat m)).data = natStr m := rfl
      rw [he] at h
      rcases natStr_mem_digitChar m _ h with ⟨k, hk⟩
      exact digitChar_ne_nl k hk.symm
    · have he : (toString (Int.negSucc m)).data = '-' :: natStr (m + 1) := rfl
      rw [he] at h
      rcases List.mem_cons.mp h with h | h
      · exact absurd h (by decide)
      · rcases natStr_mem_digitChar (m + 1) _ h with ⟨k, hk⟩
        exact digitChar_ne_nl k hk.symm
  | case5 s => rw [dumpJ]; exact noNL_dumpStr s
  | case6 xs ih =>
    rw [dumpJ_arr_eq]
    intro h
    rcases List.mem_cons.mp h with h | h
    · exact absurd h (by decide)
    · rcases List.mem_append.mp h with h | h
      · refine noNL_sepJoin _ ?_ h
        intro s hs
        rcases List.mem_map.mp hs with ⟨x, hx, hxs⟩
        exact hxs ▸ ih ⟨x, hx⟩
      · exact absurd h (by decide)
  | case7 fs ih =>
    rw [dumpJ_obj_eq]
    intro h
    rcases List.mem_cons.mp h with h | h
    · exact absurd h (by decide)
    · rcases List.mem_append.mp h with h | h
      · refine noNL_sepJoin _ ?_ h
        intro s hs
        rcases List.mem_map.mp hs with ⟨kv, hkv, hs⟩
        subst hs
        intro hm
        rcases List.mem_append.mp hm with hm | hm
        · exact noNL_dumpStr _ hm
        · rcases List.mem_cons.mp hm with hm | hm
          · exact absurd hm (by decide)
          · rcases List.mem_cons.mp hm with hm | hm
            · exact absurd hm (by decide)
            · exact ih ⟨kv, hkv⟩ hm
      · exact absurd h (by decide)

/-! ### Lemmas about the result parser -/

theorem jLookup_eq_none_iff (k : Str) (fs : List (Str × J)) :
    jLookup k fs = none ↔ containsKey k fs = false := by
  induction fs with
  | nil => exact ⟨fun _ => rfl, fun _ => rfl⟩
  | cons kv rest ih =>
    rw [jLookup, containsKey, List.any_cons]
    by_cases h : kv.1 = k
    · rw [if_pos h, beq_iff_eq.mpr h]
      constructor
      · intro hc; cases hc
      · intro hc; exact absurd hc (by simp)
    · rw [if_neg h, beq_eq_false_iff_ne.mpr h, Bool.false_or]
      exact ih

theorem finishPart_ne_ok_none (cidJ : J) (e b : Str) :
    finishPart cidJ e b ≠ .ok none := by
  cases cidJ <;> simp [finishPart]

theorem finishPart_eq_ok_some (cidJ : J) (e b : Str) (w : Write)
    (h : finishPart cidJ e b = .ok (some w)) :
    ∃ cid, cidJ = J.str cid ∧ w = mkWrite cid e b := by
  cases cidJ <;> simp [finishPart] at h
  case str s => exact ⟨s, rfl, h.symm⟩

theorem extFor_cases (m : Str) : extFor m = ".jpg".data ∨ extFor m = ".png".data := by
  unfold extFor
  split
  · exact Or.inl rfl
  · exact Or.inr rfl

/-- A part that the loop skips without a write has no `inline_data` field. -/
theorem processPart_ok_none (cidJ p : J)
    (h : processPart cidJ p = .ok none) : hasInlineKey p = false := by
  cases p with
  | obj pfs =>
    simp only [hasInlineKey]
    cases hl : jLookup "inline_data".data pfs with
    | none => exact (jLookup_eq_none_iff _ _).mp hl
    | some v =>
      exfalso
      simp only [processPart] at h
      simp only [hl] at h
      cases v with
      | obj ds =>
        cases hd : jLookup "data".data ds with
        | none => simp only [hd] at h; exact Except.noConfusion h
        | some dv =>
          simp only [hd] at h
          cases dv with
          | str b64 =>
            cases hm : jLookup "mime_type".data ds with
            | none => simp only [hm] at h; exact finishPart_ne_ok_none _ _ _ h
            | some mv =>
              simp only [hm] at h
              cases mv with
              | str m => exact finishPart_ne_ok_none _ _ _ h
              | arr xs => exact finishPart_ne_ok_none _ _ _ h
              | obj ms => exact finishPart_ne_ok_none _ _ _ h
              | null => exact Except.noConfusion h
              | bool b => exact Except.noConfusion h
              | num n => exact Except.noConfusion h
          | null => exact Except.noConfusion h
          | bool b => exact Except.noConfusion h
          | num n => exact Except.noConfusion h
          | arr xs => exact Except.noConfusion h
          | obj ms => exact Except.noConfusion h
      | null => exact Except.noConfusion h
      | bool b => exact Except.noConfusion h
      | num n => exact Except.noConfusion h
      | str s => exact Except.noConfusion h
      | arr xs => exact Except.noConfusion h
  | str s =>
    simp [hasInlineKey]
  | arr xs =>
    simp [hasInlineKey]
  | null => simp [hasInlineKey]
  | bool b => simp [hasInlineKey]
  | num n => simp [hasInlineKey]

/-- Every write produced by one part comes from a string `custom_id` and uses
one of the two possible extensions; and the part carries an `inline_data`
field. -/
theorem processPart_ok_some (cidJ p : J) (w : Write)
    (h : processPart cidJ p = .ok (some w)) :
    hasInlineKey p = true ∧
      ∃ cid ext b64, cidJ = J.str cid ∧
        (ext = ".jpg".data ∨ ext = ".png".data) ∧ w = mkWrite cid ext b64 := by
  cases p with
  | obj pfs =>
    simp only [processPart] at h
    cases hl : jLookup "inline_data".data pfs with
    | none => simp [hl] at h
    | some v =>
      simp only [hl] at h
      have hk : hasInlineKey (J.obj pfs) = true := by
        simp only [hasInlineKey]
        cases hck : containsKey "inline_data".data pfs with
        | true => rfl
        | false => rw [(jLookup_eq_none_iff _ _).mpr hck] at hl; cases hl
      refine ⟨hk, ?_⟩
      cases v with
      | obj ds =>
        cases hd : jLookup "data".data ds with
        | none => simp only [hd] at h; exact Except.noConfusion h
        | some dv =>
          simp only [hd] at h
          cases dv with
          | str b64 =>
            cases hm : jLookup "mime_type".data ds with
            | none =>
              simp only [hm] at h
              rcases finishPart_eq_ok_some _ _ _ _ h with ⟨cid, hc, hw⟩
              exact ⟨cid, _, b64, hc, extFor_cases _, hw⟩
            | some mv =>
              simp only [hm] at h
              cases mv with
              | str m =>
                rcases finishPart_eq_ok_some _ _ _ _ h with ⟨cid, hc, hw⟩
                exact ⟨cid, _, b64, hc, extFor_cases _, hw⟩
              | arr xs =>
                rcases finishPart_eq_ok_some _ _ _ _ h with ⟨cid, hc, hw⟩
                refine ⟨cid, _, b64, hc, ?_, hw⟩
                split <;> simp
              | obj ms =>
                rcases finishPart_eq_ok_some _ _ _ _ h with ⟨cid, hc, hw⟩
                refine ⟨cid, _, b64, hc, ?_, hw⟩
                split <;> simp
              | null => exact Except.noConfusion h
              | bool b => exact Except.noConfusion h
              | num n => exact Except.noConfusion h
          | null => exact Except.noConfusion h
          | bool b => exact Except.noConfusion h
          | num n => exact Except.noConfusion h
          | arr xs => exact Except.noConfusion h
          | obj ms => exact Except.noConfusion h
      | null => exact Except.noConfusion h
      | bool b => exact Except.noConfusion h
      | num n => exact Except.noConfusion h
      | str s => exact Except.noConfusion h
      | arr xs => exact Except.noConfusion h
  | str s =>
    exfalso
    simp only [processPart] at h
    split at h <;> simp at h
  | arr xs =>
    exfalso
    simp only [processPart] at h
    split at h <;> simp at h
  | null => simp only [processPart] at h; exact Except.noConfusion h
  | bool b => simp only [processPart] at h; exact Except.noConfusion h
  | num n => simp only [processPart] at h; exact Except.noConfusion h

/-- When the parts loop completes without an exception, it has written exactly
one file per `inline_data`-carrying part. -/
theorem processParts_length (cidJ : J) (ps : List J) (ws : List Write)
    (h : processParts cidJ ps = (ws, true)) :
    ws.length = ps.countP (fun p => hasInlineKey p) := by
  induction ps generalizing ws with
  | nil =>
    simp only [processParts, Prod.mk.injEq] at h
    rw [← h.1]
    rfl
  | cons p rest ih =>
    rw [processParts] at h
    cases hp : processPart cidJ p with
    | error e => simp only [hp] at h; simp at h
    | ok o => cases o with
      | none =>
        simp only [hp] at h
        have hni := processPart_ok_none cidJ p hp
        rw [List.countP_cons]
        simp only [hni, Bool.false_eq_true, if_false, Nat.add_zero]
        exact ih ws h
      | some w =>
        simp only [hp] at h
        rcases hr : processParts cidJ rest with ⟨ws2, ok2⟩
        rw [hr] at h
        simp only [Prod.mk.injEq] at h
        obtain ⟨h1, h2⟩ := h
        subst h1
        subst h2
        have hpi := (processPart_ok_some cidJ p w hp).1
        rw [List.countP_cons]
        simp only [hpi, if_true, List.length_cons]
        rw [ih ws2 hr]

/-- A parts list of plain dicts without `inline_data` is processed to
completion with no writes. -/
theorem processParts_no_inline (cidJ : J) (ps : List J)
    (h : ∀ p ∈ ps, ∃ pfs, p = J.obj pfs ∧ containsKey "inline_data".data pfs = false) :
    processParts cidJ ps = ([], true) := by
  induction ps with
  | nil => rfl
  | cons p rest ih =>
    rcases h p (List.mem_cons_self p rest) with ⟨pfs, hp, hk⟩
    subst hp
    rw [processParts]
    have hnone : processPart cidJ (J.obj pfs) = .ok none := by
      simp only [processPart]
      rw [(jLookup_eq_none_iff _ _).mpr hk]
    rw [hnone]
    exact ih (fun q hq => h q (List.mem_cons_of_mem _ hq))

/-- Every write of a completed-or-aborted parts loop has the standard shape. -/
theorem mem_processParts (cidJ : J) (ps : List J) (w : Write)
    (h : w ∈ (processParts cidJ ps).1) :
    ∃ cid ext b64, cidJ = J.str cid ∧
      (ext = ".jpg".data ∨ ext = ".png".data) ∧ w = mkWrite cid ext b64 := by
  induction ps with
  | nil => exact absurd h (List.not_mem_nil w)
  | cons p rest ih =>
    rw [processParts] at h
    cases hp : processPart cidJ p with
    | error e => simp only [hp] at h; exact absurd h (List.not_mem_nil w)
    | ok o => cases o with
      | none => simp only [hp] at h; exact ih h
      | some w2 =>
        simp only [hp] at h
        rcases hr : processParts cidJ rest with ⟨ws2, ok2⟩
        rw [hr] at h
        rcases List.mem_cons.mp h with h | h
        · rcases (processPart_ok_some cidJ p w2 hp).2 with ⟨cid, ext, b64, hc, he, hw⟩
          exact ⟨cid, ext, b64, hc, he, h ▸ hw⟩
        · have hw2 : (processParts cidJ rest).1 = ws2 := by rw [hr]
          exact ih (hw2 ▸ h)

/-- Every write of one candidate has the standard shape. -/
theorem mem_processFirstCandidate (cidJ c0 : J) (w : Write)
    (h : w ∈ (processFirstCandidate cidJ c0).1) :
    ∃ cid ext b64, cidJ = J.str cid ∧
      (ext = ".jpg".data ∨ ext = ".png".data) ∧ w = mkWrite cid ext b64 := by
  cases c0 with
  | obj c0fs =>
    simp only [processFirstCandidate] at h
    cases hc : (jLookup "content".data c0fs).getD (J.obj []) with
    | obj cfs =>
      simp only [hc] at h
      cases hp : (jLookup "parts".data cfs).getD (J.arr []) with
      | arr ps => simp only [hp] at h; exact mem_processParts _ _ _ h
      | str s => simp only [hp] at h; exact absurd h (List.not_mem_nil w)
      | obj pfs =>
        simp only [hp] at h
        split at h <;> exact absurd h (List.not_mem_nil w)
      | null => simp only [hp] at h; exact absurd h (List.not_mem_nil w)
      | bool b => simp only [hp] at h; exact absurd h (List.not_mem_nil w)
      | num n => simp only [hp] at h; exact absurd h (List.not_mem_nil w)
    | null => simp only [hc] at h; exact absurd h (List.not_mem_nil w)
    | bool b => simp only [hc] at h; exact absurd h (List.not_mem_nil w)
    | num n => simp only [hc] at h; exact absurd h (List.not_mem_nil w)
    | str s => simp only [hc] at h; exact absurd h (List.not_mem_nil w)
    | arr xs => simp only [hc] at h; exact absurd h (List.not_mem_nil w)
  | str s => simp only [processFirstCandidate] at h; exact absurd h (List.not_mem_nil w)
  | arr xs => simp only [processFirstCandidate] at h; exact absurd h (List.not_mem_nil w)
  | null => simp only [processFirstCandidate] at h; exact absurd h (List.not_mem_nil w)
  | bool b => simp only [processFirstCandidate] at h; exact absurd h (List.not_mem_nil w)
  | num n => simp only [processFirstCandidate] at h; exact absurd h (List.not_mem_nil w)

/-- Every write of the candidates stage has the standard shape. -/
theorem mem_processCandidates (cidJ cand : J) (w : Write)
    (h : w ∈ (processCandidates cidJ cand).1) :
    ∃ cid ext b64, cidJ = J.str cid ∧
      (ext = ".jpg".data ∨ ext = ".png".data) ∧ w = mkWrite cid ext b64 := by
  unfold processCandidates at h
  split at h
  · exact absurd h (List.not_mem_nil w)
  · split at h
    · exact mem_processFirstCandidate _ _ _ h
    · exact absurd h (List.not_mem_nil w)

/-- Every write of one result line comes from the line's `custom_id` (or its
fallback) as a string, with one of the two extensions. -/
theorem mem_processResult (i : Nat) (fs : List (Str × J)) (w : Write)
    (h : w ∈ (processResult i (J.obj fs)).1) :
    ∃ cid ext b64, lineCustomId i fs = J.str cid ∧
      (ext = ".jpg".data ∨ ext = ".png".data) ∧ w = mkWrite cid ext b64 := by
  simp only [processResult] at h
  cases hresp : (jLookup "response".data fs).getD (J.obj []) with
  | obj rs =>
    simp only [hresp] at h
    split at h
    · exact absurd h (List.not_mem_nil w)
    · exact mem_processCandidates _ _ _ h
  | null => simp only [hresp] at h; exact absurd h (List.not_mem_nil w)
  | bool b => simp only [hresp] at h; exact absurd h (List.not_mem_nil w)
  | num n => simp only [hresp] at h; exact absurd h (List.not_mem_nil w)
  | str s => simp only [hresp] at h; exact absurd h (List.not_mem_nil w)
  | arr xs => simp only [hresp] at h; exact absurd h (List.not_mem_nil w)

/-- A line whose `response` object carries an `error` field is skipped:
no writes, no exception. -/
theorem processResult_error_skip (i : Nat) (fs rs : List (Str × J))
    (hr : jLookup "response".data fs = some (J.obj rs))
    (he : containsKey "error".data rs = true) :
    processResult i (J.obj fs) = ([], true) := by
  simp only [processResult, hr, Option.getD_some, he, if_true]

/-! ### Lemmas about the path computation -/

theorem firstIdx_append_of_not_mem (x : Str) (pre post : List Str) (h : x ∉ pre) :
    firstIdx x (pre ++ x :: post) = some pre.length := by
  induction pre with
  | nil => simp [firstIdx]
  | cons y ys ih =>
    rw [List.cons_append, firstIdx]
    have hy : ¬y = x := fun he => h (he ▸ List.mem_cons_self y ys)
    rw [if_neg hy, ih (fun hm => h (List.mem_cons_of_mem y hm))]
    rfl

theorem firstIdx_eq_none (x : Str) (l : List Str) (h : x ∉ l) :
    firstIdx x l = none := by
  induction l with
  | nil => rfl
  | cons y ys ih =>
    have hy : ¬y = x := fun he => h (he ▸ List.mem_cons_self y ys)
    rw [firstIdx, if_neg hy, ih (fun hm => h (List.mem_cons_of_mem y hm))]
    rfl

/-! ### The claims -/

/-- C1: for every list of filenames and a fixed prompt, the request-manifest
builder emits exactly one record per filename (and the serialized manifest has
exactly one newline-terminated line per filename), each record matches the
spec's request-line schema with the given prompt as the text part, the
`custom_id` of a filename's record is exactly `"retouch_"` prefixed to the
filename, distinct filenames give distinct `custom_id`s, and dropping the
8-character tag recovers the filename. -/
theorem claim_C1_request_manifest (image_names : List Str) (prompt : Str) :
    (createBatchLines image_names prompt).length = image_names.length ∧
    (∀ j ∈ createBatchLines image_names prompt, specRequestLineSchema prompt j) ∧
    (∀ n : Str, customIdOf (requestLine prompt n) =
      some (J.str ("retouch_".data ++ n))) ∧
    (image_names.Nodup →
      ((createBatchLines image_names prompt).map customIdOf).Nodup) ∧
    (∀ n : Str, ("retouch_".data ++ n).drop "retouch_".data.length = n) ∧
    (batchFileText image_names prompt).count '\n' = image_names.length := by
  refine ⟨by simp [createBatchLines], ?_, ?_, ?_, ?_, ?_⟩
  · intro j hj
    rcases List.mem_map.mp hj with ⟨n, hn, he⟩
    exact ⟨"retouch_".data ++ n, MODEL_ID, "image/jpeg".data,
      GCS_INPUT_PATH ++ n, he.symm⟩
  · intro n
    rfl
  · intro hnd
    rw [createBatchLines, List.map_map]
    have he : (customIdOf ∘ requestLine prompt) =
        (fun n => some (J.str ("retouch_".data ++ n))) := by
      funext n; rfl
    rw [he]
    refine List.Nodup.map ?_ hnd
    intro a b hab
    simp only [Option.some.injEq, J.str.injEq] at hab
    exact List.append_cancel_left hab
  · intro n
    exact List.drop_left "retouch_".data n
  · induction image_names with
    | nil => rfl
    | cons n rest ih =>
      rw [batchFileText, List.map_cons, List.flatten_cons, List.count_append]
      have h1 : (dumpJ (requestLine prompt n) ++ ['\n']).count '\n' = 1 := by
        rw [List.count_append, List.count_eq_zero.mpr (noNL_dumpJ _)]
        rfl
      rw [h1]
      have h2 : (List.map (fun m => dumpJ (requestLine prompt m) ++ ['\n']) rest).flatten
          = batchFileText rest prompt := rfl
      rw [h2, ih, List.length_cons, Nat.add_comm]

/-- C1 witness: at two distinct concrete filenames the emitted `custom_id`s
are distinct. -/
theorem claim_C1_request_manifest_witness :
    ((createBatchLines ["a.jpg".data, "b.jpg".data] "p".data).map customIdOf).Nodup :=
  (claim_C1_request_manifest ["a.jpg".data, "b.jpg".data] "p".data).2.2.2.1 (by decide)

/-- C2 counterexample: for the filename `"retouch_a.jpg"` (which itself
contains the tag), the parser's `str.replace` strips both occurrences, so the
output name is `"a_retouched.png"` and not the claimed
`"retouch_a_retouched.png"`. -/
theorem claim_C2_roundtrip_cex :
    outNameFor ("retouch_".data ++ "retouch_a.jpg".data) ".png".data ≠
      pySplitextFst "retouch_a.jpg".data ++ "_retouched".data ++ ".png".data := by
  decide

/-- C2 amended: for every filename `f` that does not itself contain the
substring `"retouch_"`, decoding the encoded `custom_id` `"retouch_" ++ f`
yields `splitext(f)[0] ++ "_retouched" ++ ext` for the MIME-derived `ext`. -/
theorem claim_C2_roundtrip_amended (f ext : Str)
    (h : containsSub "retouch_".data f = false) :
    outNameFor ("retouch_".data ++ f) ext =
      pySplitextFst f ++ "_retouched".data ++ ext := by
  unfold outNameFor
  have h1 : pyReplaceDel "retouch_".data ("retouch_".data ++ f) = f := by
    have h2 : pyReplaceDel ('r' :: "etouch_".data) (('r' :: "etouch_".data) ++ f) =
        pyReplaceDel ('r' :: "etouch_".data) f :=
      pyReplaceDel_append_self 'r' "etouch_".data f
    have h3 : ('r' :: "etouch_".data) = "retouch_".data := by decide
    rw [h3] at h2
    rw [h2]
    exact pyReplaceDel_of_not_containsSub _ _ h
  rw [h1]

/-- C2 witness: the amended round trip at the concrete filename
`"photo.jpg"`. -/
theorem claim_C2_roundtrip_witness :
    outNameFor ("retouch_".data ++ "photo.jpg".data) ".png".data =
      pySplitextFst "photo.jpg".data ++ "_retouched".data ++ ".png".data :=
  claim_C2_roundtrip_amended "photo.jpg".data ".png".data (by decide)

/-- C3: a manifest of one well-formed success line (producing exactly one
write) followed by a line whose response object carries an `error` field
yields exactly that one output image; the error line raises nothing, is
recorded as no per-line failure, and processing continues past it. -/
theorem claim_C3_error_line_skipped (jS jE : J) (w : Write)
    (fs rs : List (Str × J))
    (hS : processResult 0 jS = ([w], true))
    (hE1 : jE = J.obj fs)
    (hE2 : jLookup "response".data fs = some (J.obj rs))
    (hE3 : containsKey "error".data rs = true) :
    processLines [some jS, some jE] = ([w], []) := by
  subst hE1
  have hE := processResult_error_skip 1 fs rs hE2 hE3
  simp [processLines, processLinesFrom, hS, hE]

/-- C3 witness: a concrete success line plus a concrete error line. -/
theorem claim_C3_error_line_skipped_witness :
    processLines
      [some (successLine "retouch_a.jpg".data
        [candidateOf [inlinePart (some "image/png".data) "aGVsbG8=".data]]),
       some (errorLine "retouch_b.jpg".data)] =
      ([mkWrite "retouch_a.jpg".data ".png".data "aGVsbG8=".data], []) :=
  claim_C3_error_line_skipped
    (successLine "retouch_a.jpg".data
      [candidateOf [inlinePart (some "image/png".data) "aGVsbG8=".data]])
    (errorLine "retouch_b.jpg".data)
    (mkWrite "retouch_a.jpg".data ".png".data "aGVsbG8=".data)
    [("custom_id".data, J.str "retouch_b.jpg".data),
     ("response".data, J.obj [("error".data,
       J.obj [("message".data, J.str "quota".data)])])]
    [("error".data, J.obj [("message".data, J.str "quota".data)])]
    (by decide) rfl rfl (by decide)

/-- C4: a malformed (non-JSON) line interleaved between two well-formed
success lines is recorded as a per-line failure at its index, the run does
not abort, and the writes of both well-formed lines are still produced. -/
theorem claim_C4_malformed_line_tolerated (j1 j2 : J) (ws1 ws2 : List Write)
    (h1 : processResult 0 j1 = (ws1, true))
    (h2 : processResult 2 j2 = (ws2, true)) :
    processLines [some j1, none, some j2] = (ws1 ++ ws2, [1]) := by
  simp [processLines, processLinesFrom, h1, h2]

/-- C4 witness: two concrete success lines around one malformed line. -/
theorem claim_C4_malformed_line_tolerated_witness :
    processLines
      [some (successLine "retouch_a.jpg".data
        [candidateOf [inlinePart none "QUFB".data]]),
       none,
       some (successLine "retouch_c.png".data
        [candidateOf [inlinePart none "QkJC".data]])] =
      ([mkWrite "retouch_a.jpg".data ".png".data "QUFB".data,
        mkWrite "retouch_c.png".data ".png".data "QkJC".data], [1]) :=
  claim_C4_malformed_line_tolerated
    (successLine "retouch_a.jpg".data [candidateOf [inlinePart none "QUFB".data]])
    (successLine "retouch_c.png".data [candidateOf [inlinePart none "QkJC".data]])
    [mkWrite "retouch_a.jpg".data ".png".data "QUFB".data]
    [mkWrite "retouch_c.png".data ".png".data "QkJC".data]
    (by decide) (by decide)

/-- C5: the extension chosen for an extracted inline part is `".jpg"` exactly
when the declared MIME string contains `"jpeg"`, and `".png"` for every other
MIME string; a part whose `inline_data` has a `data` payload and a usable
MIME string (a missing `mime_type` defaulting to `"image/png"`) is written
with exactly that extension. -/
theorem claim_C5_mime_extension :
    (∀ m : Str, extFor m = ".jpg".data ↔ containsSub "jpeg".data m = true) ∧
    (∀ m : Str, containsSub "jpeg".data m = false → extFor m = ".png".data) ∧
    (∀ (cid : Str) (fs ds : List (Str × J)) (m b64 : Str),
      jLookup "inline_data".data fs = some (J.obj ds) →
      partMimeStr ds = some m →
      jLookup "data".data ds = some (J.str b64) →
      processPart (J.str cid) (J.obj fs) =
        .ok (some (mkWrite cid (extFor m) b64))) := by
  refine ⟨?_, ?_, ?_⟩
  · intro m
    unfold extFor
    split
    · simpa
    · constructor
      · intro hc; exact absurd hc (by decide)
      · intro hc; simp_all
  · intro m hc
    unfold extFor
    rw [hc]
    rfl
  · intro cid fs ds m b64 h1 hm hd
    simp only [processPart, h1, hd]
    unfold partMimeStr at hm
    cases hmm : jLookup "mime_type".data ds with
    | none =>
      rw [hmm] at hm
      injection hm with hm
      subst hm
      simp only [hmm]
      rfl
    | some mv =>
      rw [hmm] at hm
      cases mv with
      | str m2 =>
        injection hm with hm
        subst hm
        simp only [hmm]
        rfl
      | null => exact Option.noConfusion hm
      | bool b => exact Option.noConfusion hm
      | num n => exact Option.noConfusion hm
      | arr xs => exact Option.noConfusion hm
      | obj ms => exact Option.noConfusion hm

/-- C5 witness: concrete MIME strings, and a concrete part with a missing
MIME type written as `.png`. -/
theorem claim_C5_mime_extension_witness :
    extFor "image/jpeg".data = ".jpg".data ∧
    extFor "image/webp".data = ".png".data ∧
    processPart (J.str "retouch_a.jpg".data)
        (J.obj [("inline_data".data, J.obj [("data".data, J.str "QUFB".data)])]) =
      .ok (some (mkWrite "retouch_a.jpg".data
        (extFor "image/png".data) "QUFB".data)) :=
  ⟨(claim_C5_mime_extension.1 "image/jpeg".data).mpr (by decide),
   claim_C5_mime_extension.2.1 "image/webp".data (by decide),
   claim_C5_mime_extension.2.2 "retouch_a.jpg".data
     [("inline_data".data, J.obj [("data".data, J.str "QUFB".data)])]
     [("data".data, J.str "QUFB".data)]
     "image/png".data "QUFB".data rfl rfl rfl⟩

/-- C6: on the empty input collection the builder emits no request records,
writes an empty (zero-byte) manifest, and the caller's main flow exits as a
no-op before any further action. -/
theorem claim_C6_empty_input (prompt : Str) :
    createBatchLines [] prompt = [] ∧ batchFileText [] prompt = [] ∧
      batchMain [] prompt = MainStep.exitNoOp :=
  ⟨rfl, rfl, rfl⟩

/-- C7 counterexample: a result line with two candidates, each carrying one
inline-data part, has two inline parts among its candidates but the parser
(which reads only `candidates[0]`) writes exactly one file — so not every
inline part among the line's candidates yields a written output file. -/
theorem claim_C7_every_candidate_cex :
    specLineInlineParts (successLine "retouch_a.jpg".data
      [candidateOf [inlinePart none "QUFB".data],
       candidateOf [inlinePart none "QkJC".data]]) = 2 ∧
    ((processResult 0 (successLine "retouch_a.jpg".data
      [candidateOf [inlinePart none "QUFB".data],
       candidateOf [inlinePart none "QkJC".data]])).1).length = 1 :=
  ⟨rfl, rfl⟩

/-- C7 amended: the parser walks `content → parts` of the **first** candidate
only (any further candidates are ignored); within that candidate, a completed
parts loop writes exactly one file per `inline_data`-carrying part; and a
parts list of plain parts without inline data yields zero writes and is not
an error. -/
theorem claim_C7_first_candidate_only (cid : J) :
    (∀ (c0 : J) (rest : List J),
      processCandidates cid (J.arr (c0 :: rest)) = processFirstCandidate cid c0) ∧
    (∀ (ps : List J) (ws : List Write),
      processParts cid ps = (ws, true) →
      ws.length = ps.countP (fun p => hasInlineKey p)) ∧
    (∀ ps : List J,
      (∀ p ∈ ps, ∃ pfs, p = J.obj pfs ∧
        containsKey "inline_data".data pfs = false) →
      processParts cid ps = ([], true)) := by
  refine ⟨?_, processParts_length cid, processParts_no_inline cid⟩
  intro c0 rest
  simp [processCandidates, jFalsy]

/-- C7 witness: a two-part parts list with one inline part produces exactly
one write. -/
theorem claim_C7_first_candidate_only_witness :
    ([mkWrite "a".data ".png".data "QUFB".data] : List Write).length =
      ([inlinePart none "QUFB".data, J.obj [("text".data, J.str "ok".data)]]
        : List J).countP (fun p => hasInlineKey p) :=
  (claim_C7_first_candidate_only (J.str "a".data)).2.1
    [inlinePart none "QUFB".data, J.obj [("text".data, J.str "ok".data)]]
    [mkWrite "a".data ".png".data "QUFB".data] rfl

/-- C8 counterexample: `"photo.Jpg"` ends with `.jpg` in mixed letter case, so
the spec's case-insensitive predicate accepts it, but the synchronous entry
points' selectors (which test only the six all-lower/all-upper suffixes)
reject it. -/
theorem claim_C8_case_insensitive_cex :
    specAcceptsCI [".jpg".data, ".jpeg".data, ".png".data] "photo.Jpg".data = true ∧
    mainAccepts "photo.Jpg".data = false ∧
    singleAccepts "photo.Jpg".data = false := by
  refine ⟨?_, ?_, ?_⟩ <;> decide

/-- C8 amended: the upload path's selector is genuinely case-insensitive over
`.jpg/.jpeg/.png/.webp` (it equals the spec's lowercase-and-test predicate),
but the two synchronous entry points accept exactly the six literal suffixes
`.jpg/.png/.jpeg/.JPG/.PNG/.JPEG` — all-lowercase or all-uppercase only, not
arbitrary letter case. -/
theorem claim_C8_case_insensitive_amended :
    (∀ f : Str, uploadAccepts f =
      specAcceptsCI [".jpg".data, ".jpeg".data, ".png".data, ".webp".data] f) ∧
    (∀ f : Str, mainAccepts f =
      ([".jpg".data, ".png".data, ".jpeg".data, ".JPG".data, ".PNG".data,
        ".JPEG".data].any (fun e => pyEndsWith e f))) ∧
    (∀ f : Str, singleAccepts f = mainAccepts f) := by
  refine ⟨?_, ?_, ?_⟩
  · intro f
    simp [uploadAccepts, specAcceptsCI, Bool.or_assoc]
  · intro f
    simp [mainAccepts, Bool.or_assoc]
  · intro f
    rfl

/-- C9: in the synchronous transform of `single_retouch.py`, the output
directory reproduces under the processed base exactly the path segments after
the first `"raw"` segment of the input directory (and is the base itself when
no segment equals `"raw"`), and each output filename is
`"retouched_" ++ stem ++ ".png"`. -/
theorem claim_C9_output_layout :
    (∀ (rawDir processedDir : Str) (pre post : List Str),
      pathParts rawDir = pre ++ "raw".data :: post → "raw".data ∉ pre →
      outputDirParts rawDir processedDir = pathParts processedDir ++ post) ∧
    (∀ rawDir processedDir : Str, "raw".data ∉ pathParts rawDir →
      outputDirParts rawDir processedDir = pathParts processedDir) ∧
    (∀ f : Str, singleOutName f = "retouched_".data ++ pyStem f ++ ".png".data) := by
  refine ⟨?_, ?_, fun f => rfl⟩
  · intro rawDir processedDir pre post hparts hpre
    simp only [outputDirParts, hparts, firstIdx_append_of_not_mem _ _ _ hpre]
    congr 1
    have he : pre ++ "raw".data :: post = (pre ++ ["raw".data]) ++ post := by simp
    rw [he, List.drop_left' (by simp)]
  · intro rawDir processedDir h
    simp only [outputDirParts, firstIdx_eq_none _ _ h]

/-- C9 witness: the concrete input directory `./data/raw/shoot1` is mirrored
as `shoot1` under the processed base. -/
theorem claim_C9_output_layout_witness :
    outputDirParts "./data/raw/shoot1".data "./data/processed".data =
      pathParts "./data/processed".data ++ ["shoot1".data] :=
  claim_C9_output_layout.1 "./data/raw/shoot1".data "./data/processed".data
    ["data".data] ["shoot1".data] (by decide) (by decide)

/-- C10: a parsed result line without a `custom_id` field does not raise: the
parser substitutes the fallback identifier `image_<i>` (zero-based line
index) — substituting that identifier explicitly gives the very same result —
and every file written for such a line is named
`image_<i>_retouched` plus the MIME-derived extension. -/
theorem claim_C10_missing_custom_id (i : Nat) (fs : List (Str × J))
    (h : jLookup "custom_id".data fs = none) :
    lineCustomId i fs = J.str ("image_".data ++ natStr i) ∧
    processResult i
        (J.obj (("custom_id".data, J.str ("image_".data ++ natStr i)) :: fs)) =
      processResult i (J.obj fs) ∧
    (∀ w ∈ (processResult i (J.obj fs)).1, ∃ ext,
      (ext = ".jpg".data ∨ ext = ".png".data) ∧
      w.name = "image_".data ++ natStr i ++ "_retouched".data ++ ext) := by
  have hfall : lineCustomId i fs = J.str ("image_".data ++ natStr i) := by
    rw [lineCustomId, h]
    rfl
  refine ⟨hfall, ?_, ?_⟩
  · have e1 : jLookup "custom_id".data
        (("custom_id".data, J.str ("image_".data ++ natStr i)) :: fs) =
        some (J.str ("image_".data ++ natStr i)) := by
      rw [jLookup, if_pos rfl]
    have hd : ¬"custom_id".data = "response".data := by decide
    have e2 : jLookup "response".data
        (("custom_id".data, J.str ("image_".data ++ natStr i)) :: fs) =
        jLookup "response".data fs := by
      simp [jLookup, hd]
    simp only [processResult, lineCustomId, e1, e2, h, Option.getD_some,
      Option.getD_none]
  · intro w hw
    rcases mem_processResult i fs w hw with ⟨cid, ext, b64, hcid, hext, hwq⟩
    rw [hfall] at hcid
    injection hcid with hcid
    refine ⟨ext, hext, ?_⟩
    rw [hwq]
    show outNameFor cid ext = "image_".data ++ natStr i ++ "_retouched".data ++ ext
    rw [← hcid]
    unfold outNameFor
    simp only [pyReplaceDel_of_not_containsSub _ _ (fallback_id_no_retouch i),
      pySplitextFst_of_no_dot _ (fallback_id_no_dot i)]

/-- C10 witness: at line index 0 with a custom-id-free line, the fallback
identifier is `image_0`. -/
theorem claim_C10_missing_custom_id_witness :
    lineCustomId 0 [("response".data, J.obj [])] =
      J.str ("image_".data ++ natStr 0) :=
  (claim_C10_missing_custom_id 0 [("response".data, J.obj [])] rfl).1

end GeminiRetouch
